import Mathlib

/-!
Verification development for the TrackTime365 calendar-sync repository.

The relevant parts of the program are embedded shallowly:

* `src/database.py`: the relational store is a `DBState` (event table,
  category table, event-category link table, and the IDENTITY counter of
  the category table).  `upsert_events_batch` is translated statement by
  statement from the SQL executed inside the transaction of
  `DatabaseManager.upsert_events_batch`; a raised database error is an
  `Except.error`, and the surrounding rollback makes the state transformer
  `applyUpsertBatch`.  NVARCHAR comparisons go through `strEq ci`, where
  the flag `ci` selects between a case-insensitive collation (SQL Server's
  default) and a case-sensitive one, since the schema declares no explicit
  collation.  Timestamps are abstracted as integer instants.

* `src/calendar_sync.py`: `process_event`, the rate-limit retry helper
  `_make_request_with_retry`, the single-shot `_make_batch_request`, the
  pagination loop of `get_calendar_events_batch`, and the per-mailbox loop
  of `sync_calendar` are each translated as pure functions, with the remote
  API modelled as an oracle function passed in as an argument.
-/

namespace TrackTime

set_option maxRecDepth 8000

/-- ASCII lower-casing of one character (the case folding relevant to the
category names in play). -/
def lowerChar (c : Char) : Char :=
  if 65 ≤ c.toNat ∧ c.toNat ≤ 90 then Char.ofNat (c.toNat + 32) else c

/-- NVARCHAR comparison under the database collation. `ci = true` models a
case-insensitive collation (the SQL Server default); `ci = false` a
case-sensitive one.  Every string comparison performed by the SQL in
`upsert_events_batch` (PRIMARY KEY checks on the temp tables, the MERGE
join conditions, SELECT DISTINCT, and the EXISTS subqueries) uses it. -/
def strEq (ci : Bool) (a b : String) : Bool :=
  if ci then a.data.map lowerChar == b.data.map lowerChar else a == b

deriving instance DecidableEq for Except

/-- One normalized event as handed to `DatabaseManager.upsert_events_batch`
(the dict built by `CalendarSync.process_event`).  `start_date` and
`end_date` are `Option Int` because `_parse_date` can return `None`, which
the NOT NULL temp-table columns reject. -/
structure EventData where
  event_id : String
  user_email : String
  user_name : String
  subject : String
  description : String
  start_date : Option Int
  end_date : Option Int
  last_modified : Int
  is_deleted : Bool
  categories : List String
deriving DecidableEq, Repr

/-- A row of the `calendar_event` table (content columns; the
`created_at` and `updated_at` bookkeeping timestamps are not part of the
data model). -/
structure EventRow where
  event_id : String
  user_email : String
  user_name : String
  subject : String
  description : String
  start_date : Int
  end_date : Int
  last_modified : Int
  is_deleted : Bool
deriving DecidableEq, Repr

/-- A row of the `calendar_category` table.  `category_id` is the IDENTITY
surrogate key. -/
structure CategoryRow where
  category_id : Nat
  name : String
deriving DecidableEq, Repr

/-- A row of the `calendar_event_calendar_category` link table. -/
structure LinkRow where
  event_id : String
  category_id : Nat
deriving DecidableEq, Repr

/-- The relational store: the three tables plus the next IDENTITY value of
`calendar_category`. -/
structure DBState where
  events : List EventRow
  categories : List CategoryRow
  links : List LinkRow
  nextCategoryId : Nat
deriving DecidableEq, Repr

/-- The empty database, as produced by `initialize_table` on a fresh
server (IDENTITY(1,1) is abstracted to a counter starting at 0). -/
def emptyDB : DBState :=
  { events := [], categories := [], links := [], nextCategoryId := 0 }

/-- Column constraints of the `#temp_events` temp table: every
NVARCHAR(255) column rejects longer values (SQL Server raises a
string-truncation error rather than silently truncating), and the NOT NULL
DATETIME columns reject NULL. -/
def rowValid (e : EventData) : Bool :=
  decide (e.event_id.length ≤ 255) && decide (e.user_email.length ≤ 255) &&
  decide (e.user_name.length ≤ 255) && decide (e.subject.length ≤ 255) &&
  e.start_date.isSome && e.end_date.isSome

/-- Row-by-row accumulation of the INSERT into `#temp_events` (`acc` holds
the rows already staged). -/
def insertTempEventsAux (ci : Bool) (acc : List EventData) :
    List EventData → Except Unit (List EventData)
  | [] => .ok acc
  | e :: rest =>
    if !(rowValid e) then .error ()
    else if acc.any (fun p => strEq ci p.event_id e.event_id) then .error ()
    else insertTempEventsAux ci (acc ++ [e]) rest

/-- The INSERT into `#temp_events`: fails on an invalid row or on two batch
events sharing an `event_id` under the collation (temp-table PRIMARY KEY). -/
def insertTempEvents (ci : Bool) (events : List EventData) :
    Except Unit (List EventData) :=
  insertTempEventsAux ci [] events

/-- The (event_id, category) pairs gathered by the Python loop over
`event['categories']` (events with a missing or empty list contribute
nothing). -/
def categoryPairs (events : List EventData) : List (String × String) :=
  events.flatMap (fun e => e.categories.map (fun c => (e.event_id, c)))

/-- SELECT DISTINCT under the collation, keeping the first occurrence. -/
def dedupBy {α : Type} (eq : α → α → Bool) (l : List α) : List α :=
  l.foldl (fun acc x => if acc.any (fun y => eq y x) then acc else acc ++ [x]) []

/-- The INSERT of `SELECT DISTINCT name` into `#temp_categories`. -/
def tempCategoryNames (ci : Bool) (events : List EventData) : List String :=
  dedupBy (strEq ci) ((categoryPairs events).map Prod.snd)

/-- Equality of (event_id, category_name) pairs under the collation, the
PRIMARY KEY of `#temp_event_categories`. -/
def pairEq (ci : Bool) (p q : String × String) : Bool :=
  strEq ci p.1 q.1 && strEq ci p.2 q.2

/-- Row-by-row accumulation of the INSERT into `#temp_event_categories`. -/
def insertTempPairsAux (ci : Bool) (acc : List (String × String)) :
    List (String × String) → Except Unit (List (String × String))
  | [] => .ok acc
  | p :: rest =>
    if acc.any (fun q => pairEq ci q p) then .error ()
    else insertTempPairsAux ci (acc ++ [p]) rest

/-- The INSERT into `#temp_event_categories`: a duplicate pair under the
collation violates the temp-table PRIMARY KEY and raises. -/
def insertTempPairs (ci : Bool) (pairs : List (String × String)) :
    Except Unit (List (String × String)) :=
  insertTempPairsAux ci [] pairs

/-- The row inserted by the WHEN NOT MATCHED branch of the event MERGE. -/
def eventRowOf (e : EventData) : EventRow :=
  { event_id := e.event_id
    user_email := e.user_email
    user_name := e.user_name
    subject := e.subject
    description := e.description
    start_date := e.start_date.getD 0
    end_date := e.end_date.getD 0
    last_modified := e.last_modified
    is_deleted := e.is_deleted }

/-- The WHEN MATCHED branch of the event MERGE: every column except the
match key `event_id` is overwritten from the source row. -/
def updateRow (r : EventRow) (e : EventData) : EventRow :=
  { eventRowOf e with event_id := r.event_id }

/-- One source row of the `MERGE calendar_event` statement: update the
matching target rows, or insert when none matches. -/
def mergeOne (ci : Bool) (rows : List EventRow) (e : EventData) : List EventRow :=
  if rows.any (fun r => strEq ci r.event_id e.event_id) then
    rows.map (fun r => if strEq ci r.event_id e.event_id then updateRow r e else r)
  else rows ++ [eventRowOf e]

/-- The `MERGE calendar_event AS target USING #temp_events` statement; the
temp-table PRIMARY KEY makes the source rows key-distinct, so the set-based
MERGE coincides with this left fold. -/
def mergeEvents (ci : Bool) (temp : List EventData) (rows : List EventRow) :
    List EventRow :=
  temp.foldl (mergeOne ci) rows

/-- One source name of the `MERGE calendar_category` statement: insert the
name when no category row matches it under the collation (WHEN NOT MATCHED
is the only action of this MERGE). -/
def mergeCatOne (ci : Bool) (s : DBState) (n : String) : DBState :=
  if s.categories.any (fun c => strEq ci c.name n) then s
  else { s with
    categories := s.categories ++ [⟨s.nextCategoryId, n⟩]
    nextCategoryId := s.nextCategoryId + 1 }

/-- The `MERGE calendar_category AS target USING #temp_categories`
statement. -/
def mergeCategories (ci : Bool) (names : List String) (s : DBState) : DBState :=
  names.foldl (mergeCatOne ci) s

/-- The EXISTS subquery of the link DELETE: the link is wanted by the batch,
i.e. some temp pair joined with some category row reproduces it. -/
def linkDesired (ci : Bool) (tec : List (String × String))
    (cats : List CategoryRow) (l : LinkRow) : Bool :=
  tec.any (fun p => cats.any (fun c =>
    strEq ci c.name p.2 && strEq ci p.1 l.event_id && c.category_id == l.category_id))

/-- The DELETE that removes the existing links of batched events that are
absent from the staged pairs. -/
def deleteLinks (ci : Bool) (te : List EventData) (tec : List (String × String))
    (cats : List CategoryRow) (links : List LinkRow) : List LinkRow :=
  links.filter (fun l =>
    !(te.any (fun t => strEq ci t.event_id l.event_id) && !(linkDesired ci tec cats l)))

/-- Equality on link rows under the collation (the PRIMARY KEY of the link
table). -/
def linkEq (ci : Bool) (a b : LinkRow) : Bool :=
  strEq ci a.event_id b.event_id && a.category_id == b.category_id

/-- The SELECT DISTINCT of the link INSERT: join the staged pairs with the
category table on the name. -/
def linkCandidates (ci : Bool) (tec : List (String × String))
    (cats : List CategoryRow) : List LinkRow :=
  dedupBy (linkEq ci)
    (tec.flatMap (fun p =>
      (cats.filter (fun c => strEq ci c.name p.2)).map (fun c => ⟨p.1, c.category_id⟩)))

/-- The INSERT of the missing link rows (guarded by NOT EXISTS against the
pre-statement link table). -/
def insertLinks (ci : Bool) (tec : List (String × String))
    (cats : List CategoryRow) (links : List LinkRow) : List LinkRow :=
  links ++ (linkCandidates ci tec cats).filter
    (fun c => !(links.any (fun l => linkEq ci l c)))

/-- The state committed by a successful batch upsert, given the staged
temp tables: the two MERGE statements followed by the link DELETE and the
link INSERT. -/
def upsertOkState (ci : Bool) (te : List EventData) (tc : List String)
    (tec : List (String × String)) (s : DBState) : DBState :=
  let s1 : DBState := { s with events := mergeEvents ci te s.events }
  let s2 := mergeCategories ci tc s1
  let links1 := deleteLinks ci te tec s2.categories s2.links
  let links2 := insertLinks ci tec s2.categories links1
  { s2 with links := links2 }

/-- `DatabaseManager.upsert_events_batch`: the transaction body translated
statement by statement — stage the three temp tables (either staging INSERT
can raise), then merge and synchronize.  An error anywhere raises (the
Python code rolls back and re-raises). -/
def upsert_events_batch (ci : Bool) (events : List EventData) (s : DBState) :
    Except Unit DBState :=
  match insertTempEvents ci events with
  | .error u => .error u
  | .ok te =>
    match insertTempPairs ci (categoryPairs events) with
    | .error u => .error u
    | .ok tec => .ok (upsertOkState ci te (tempCategoryNames ci events) tec s)

/-- `DatabaseManager.upsert_event`: delegates to the batch operation on the
one-element list. -/
def upsert_event (ci : Bool) (e : EventData) (s : DBState) : Except Unit DBState :=
  upsert_events_batch ci [e] s

/-- The upsert as a state transformer: commit on success, roll back (state
unchanged) on a raised database error. -/
def applyUpsertBatch (ci : Bool) (events : List EventData) (s : DBState) : DBState :=
  match upsert_events_batch ci events s with
  | .ok s2 => s2
  | .error _ => s

/-- Key integrity of the store: events keyed by `event_id`, categories by
`name` (unique) and by the IDENTITY `category_id` (all below the counter),
links keyed by `(event_id, category_id)` — all under the collation. -/
def WF (ci : Bool) (s : DBState) : Prop :=
  s.events.Pairwise (fun a b => strEq ci a.event_id b.event_id = false) ∧
  s.categories.Pairwise (fun a b => strEq ci a.name b.name = false) ∧
  s.categories.Pairwise (fun a b => a.category_id ≠ b.category_id) ∧
  (∀ c ∈ s.categories, c.category_id < s.nextCategoryId) ∧
  s.links.Pairwise (fun a b => linkEq ci a b = false)

/-- A raw calendar event as delivered by the Graph API to
`CalendarSync.process_event` (the fields the function reads).  Timestamps
are abstracted as integer instants: `none` models an absent or unparsable
value (`_parse_date` returns `None` on both). -/
structure RawEvent where
  id : Option String
  organizer_name : Option String
  subject : Option String
  body_content : Option String
  start_dateTime : Option Int
  end_dateTime : Option Int
  lastModified : Option Int
  categories : List String
deriving DecidableEq, Repr

/-- `CalendarSync._parse_date` on the abstracted timestamps: a missing
value parses to `none`, a present one to itself. -/
def parse_date (d : Option Int) : Option Int := d

/-- The `event_data` dict built by `CalendarSync.process_event`: every
missing string field defaults to the empty string, `last_modified`
defaults to the current instant, `is_deleted` is always false, and the
category list is passed through untouched. -/
def normalizedOf (now : Int) (event : RawEvent) (user_email : String)
    (eid : String) : EventData :=
  { event_id := eid
    user_email := user_email
    user_name := event.organizer_name.getD ""
    subject := event.subject.getD ""
    description := event.body_content.getD ""
    start_date := parse_date event.start_dateTime
    end_date := parse_date event.end_dateTime
    last_modified := (parse_date event.lastModified).getD now
    is_deleted := false
    categories := event.categories }

/-- `CalendarSync.process_event`: reject (no write) when the id is falsy,
otherwise upsert the normalized dict; a database error is caught and turned
into a `false` result with the state rolled back. -/
def process_event (ci : Bool) (now : Int) (event : RawEvent)
    (user_email : String) (s : DBState) : Bool × DBState :=
  match event.id with
  | none => (false, s)
  | some eid =>
    if eid = "" then (false, s)
    else
      match upsert_event ci (normalizedOf now event user_email eid) s with
      | .ok s2 => (true, s2)
      | .error _ => (false, s)

/-- Outcome of one HTTP round trip, as seen by the calling Python code: a
truthy response, a falsy 429 response carrying an optional Retry-After
header, another falsy status, or a raised exception. -/
inductive ApiResponse
  | ok
  | rateLimited (retryAfter : Option Nat)
  | httpError (status : Nat)
  | exn
deriving DecidableEq, Repr

/-- The while-loop of `CalendarSync._make_request_with_retry`, with
`left = max_retries - retries` remaining loop iterations: a truthy response
returns it (the result records the 0-based attempt index), a 429 sleeps for
the advised duration (default `retryDelay`) and retries, any other falsy
status or an exception returns None.  The sleep durations performed are
accumulated. -/
def retryAux (responses : Nat → ApiResponse) (retryDelay : Nat) :
    Nat → Nat → List Nat → Option Nat × List Nat
  | 0, _, sleeps => (none, sleeps)
  | left + 1, attempt, sleeps =>
    match responses attempt with
    | .ok => (some attempt, sleeps)
    | .rateLimited ra => retryAux responses retryDelay left (attempt + 1)
        (sleeps ++ [ra.getD retryDelay])
    | .httpError _ => (none, sleeps)
    | .exn => (none, sleeps)

/-- `CalendarSync._make_request_with_retry` with the instance settings
`max_retries = 3` and `retry_delay = 5`. -/
def make_request_with_retry (responses : Nat → ApiResponse) :
    Option Nat × List Nat :=
  retryAux responses 5 3 0 []

/-- `CalendarSync._make_batch_request`: a single POST with no retry loop —
any falsy response (a 429 included) or exception returns None immediately,
and no sleep is ever performed. -/
def make_batch_request (responses : Nat → ApiResponse) :
    Option Nat × List Nat :=
  match responses 0 with
  | .ok => (some 0, [])
  | _ => (none, [])

/-- One page of the calendarView feed as consumed by
`get_calendar_events_batch`: a 200 body with its events, or any failure
(no response, non-200 status, or a processing exception — the three
`return None` paths). -/
inductive PageResult
  | ok (events : List RawEvent)
  | err
deriving DecidableEq, Repr

/-- The while-loop of `CalendarSync.get_calendar_events_batch`: page `idx`
is the request at `$skip = idx * batch_size`.  `acc` is `all_events`,
`reqs` counts the page requests issued.  A failed page returns None for the
whole mailbox; an empty page ends the loop returning the accumulated
events.  The outer `Option` is recursion fuel (`none` = fuel exhausted),
present only because the remote feed is untrusted; the pagination theorem
shows any fuel beyond the page count is enough. -/
def fetchPagesAux (pages : Nat → PageResult) :
    Nat → Nat → List RawEvent → Nat → Option (Option (List RawEvent) × Nat)
  | 0, _, _, _ => none
  | fuel + 1, idx, acc, reqs =>
    match pages idx with
    | .err => some (none, reqs + 1)
    | .ok [] => some (some acc, reqs + 1)
    | .ok evs => fetchPagesAux pages fuel (idx + 1) (acc ++ evs) (reqs + 1)

/-- `CalendarSync.get_calendar_events_batch` as a function of the remote
page oracle. -/
def get_calendar_events_batch (pages : Nat → PageResult) (fuel : Nat) :
    Option (Option (List RawEvent) × Nat) :=
  fetchPagesAux pages fuel 0 [] 0

/-- A mailbox record from the users listing (the fields `sync_calendar`
reads). -/
structure Mailbox where
  mail : Option String
  displayName : Option String
deriving DecidableEq, Repr

/-- Outcome of fetching one mailbox's events: `fail` covers both a `None`
return of `get_calendar_events_batch` and a raised exception (the
per-mailbox `except` catches either and continues). -/
inductive FetchResult
  | fail
  | ok (events : List RawEvent)
deriving DecidableEq, Repr

/-- `CalendarSync.process_events`: upsert the mailbox's events one by one,
counting the successes; a failed event leaves the state unchanged and
processing continues. -/
def process_events (ci : Bool) (now : Int) (user_email : String)
    (events : List RawEvent) (s : DBState) : DBState × Nat :=
  events.foldl (fun acc ev =>
    match process_event ci now ev user_email acc.1 with
    | (true, s2) => (s2, acc.2 + 1)
    | (false, s2) => (s2, acc.2)) (s, 0)

/-- The body of the per-mailbox loop of `CalendarSync.sync_calendar`: a
user without a mail address is skipped without an attempt; otherwise the
mailbox is attempted, and a fetch failure (or empty result) leaves the
database untouched. -/
def syncMailboxStep (ci : Bool) (now : Int) (fetch : String → FetchResult)
    (acc : DBState × List String) (u : Mailbox) : DBState × List String :=
  match u.mail with
  | none => acc
  | some m =>
    match fetch m with
    | .fail => (acc.1, acc.2 ++ [m])
    | .ok evs => ((process_events ci now m evs acc.1).1, acc.2 ++ [m])

/-- The per-mailbox loop of `CalendarSync.sync_calendar`: fold over the
users listing, returning the final database state and the list of
attempted mailboxes in order. -/
def sync_calendar (ci : Bool) (now : Int) (fetch : String → FetchResult)
    (users : List Mailbox) (s : DBState) : DBState × List String :=
  users.foldl (syncMailboxStep ci now fetch) (s, [])

/-- A concrete normalized event used in concrete instantiations. -/
def sampleEvent : EventData :=
  { event_id := "E1", user_email := "a@x.com", user_name := "Alice",
    subject := "Standup", description := "", start_date := some 100,
    end_date := some 130, last_modified := 5, is_deleted := false,
    categories := ["Work"] }

/-- The same event re-observed with a different category list. -/
def sampleEventHome : EventData := { sampleEvent with categories := ["Home"] }

/-- The event of the repository's `test_duplicate_categories` unit test:
category names differing only in case. -/
def dupCatEvent : EventData :=
  { sampleEvent with categories := ["Work", "work", "WORK", "Meeting"] }

/-- The store after linking `sampleEvent` to the category `Work` and then
re-upserting it linked to `Home` only. -/
def afterRelink : DBState :=
  applyUpsertBatch true [sampleEventHome] (applyUpsertBatch true [sampleEvent] emptyDB)

/-- A raw event whose end instant precedes its start instant. -/
def rawInverted : RawEvent :=
  { id := some "E1", organizer_name := some "Alice", subject := some "Standup",
    body_content := some "", start_dateTime := some 100, end_dateTime := some 50,
    lastModified := some 5, categories := [] }

/-- A raw event with a present id but no subject. -/
def rawNoSubject : RawEvent :=
  { id := some "E2", organizer_name := some "Alice", subject := none,
    body_content := some "Body", start_dateTime := some 100,
    end_dateTime := some 130, lastModified := some 5, categories := [] }

/-- A 1001-character body, one unit past the claimed description bound. -/
def longDescription : String := String.mk (List.replicate 1001 'x')

/-- A raw event carrying `longDescription` as its body content. -/
def rawLongDescription : RawEvent :=
  { id := some "E3", organizer_name := none, subject := some "S",
    body_content := some longDescription, start_dateTime := some 0,
    end_dateTime := some 1, lastModified := some 0, categories := [] }

/-- A response sequence that is rate limited on the first attempt and
succeeds on the second. -/
def rateLimitedFirstResponses : Nat → ApiResponse :=
  fun n => if n = 0 then .rateLimited none else .ok

/-- A raw event with no identifier. -/
def rawNoId : RawEvent := { rawNoSubject with id := none }

/-- The store after processing `rawNoSubject` against the empty store. -/
def dbAfterNoSubject : DBState :=
  { events := [{ event_id := "E2", user_email := "a@x.com", user_name := "Alice",
                 subject := "", description := "Body", start_date := 100,
                 end_date := 130, last_modified := 5, is_deleted := false }],
    categories := [], links := [], nextCategoryId := 0 }

/-- An event whose subject exceeds the 255-unit column width. -/
def longSubjectEvent : EventData :=
  { sampleEvent with subject := String.mk (List.replicate 256 's'), categories := [] }

/-- A response sequence that is rate limited on every attempt. -/
def alwaysRateLimited : Nat → ApiResponse := fun _ => .rateLimited (some 7)

/-- A response sequence rate limited on the first two attempts and
successful on the third. -/
def rateLimitedTwice : Nat → ApiResponse :=
  fun n => if n < 2 then .rateLimited (some 7) else .ok

/-- A two-page event feed: pages 0 and 1 hold one event each, page 2 is
empty. -/
def fpages3 : Nat → List RawEvent := fun i => if i < 2 then [rawNoSubject] else []

/-- The page oracle of the two-page feed: every request answers 200. -/
def pages3 : Nat → PageResult := fun i => PageResult.ok (fpages3 i)

/-- Three concrete mailboxes. -/
def mailboxA : Mailbox := { mail := some "a@x.com", displayName := some "A" }

/-- Second concrete mailbox (its fetch fails below). -/
def mailboxB : Mailbox := { mail := some "b@x.com", displayName := some "B" }

/-- Third concrete mailbox. -/
def mailboxC : Mailbox := { mail := some "c@x.com", displayName := some "C" }

/-- A fetch oracle that fails for the second mailbox only. -/
def demoFetch : String → FetchResult :=
  fun m => if m = "b@x.com" then .fail else .ok [rawNoSubject]

/-- The collation comparison is reflexive. -/
theorem strEq_refl (ci : Bool) (a : String) : strEq ci a a = true := by
  cases ci <;> simp [strEq]

/-- Link-row equality under the collation is reflexive. -/
theorem linkEq_refl (ci : Bool) (l : LinkRow) : linkEq ci l l = true := by
  simp [linkEq, strEq_refl]

/-- Staging a single event: the only error source is a column-constraint
violation of the row itself. -/
theorem insertTempEvents_single (ci : Bool) (e : EventData) :
    insertTempEvents ci [e] = if rowValid e then .ok [e] else .error () := by
  cases hv : rowValid e <;>
    simp [insertTempEvents, insertTempEventsAux, hv]

/-- A successful staging of the pair rows returns the staged rows appended
to the accumulator. -/
theorem insertTempPairsAux_ok (ci : Bool) :
    ∀ (ps acc r : List (String × String)),
      insertTempPairsAux ci acc ps = .ok r → r = acc ++ ps := by
  intro ps
  induction ps with
  | nil =>
    intro acc r h
    simp only [insertTempPairsAux] at h
    cases h
    simp
  | cons p rest ih =>
    intro acc r h
    by_cases hd : acc.any (fun q => pairEq ci q p) = true
    · simp [insertTempPairsAux, hd] at h
    · simp only [insertTempPairsAux, hd, if_false, Bool.not_eq_true] at h
      have := ih (acc ++ [p]) r h
      simp [this]

/-- A successful staging of the pair rows stages exactly the gathered
pairs. -/
theorem insertTempPairs_ok (ci : Bool) (ps r : List (String × String))
    (h : insertTempPairs ci ps = .ok r) : r = ps := by
  simpa using insertTempPairsAux_ok ci ps [] r h

/-- The batch upsert raises when staging the event rows raises. -/
theorem upsert_eq_error_of_events (ci : Bool) (events : List EventData)
    (s : DBState) (h : insertTempEvents ci events = .error ()) :
    upsert_events_batch ci events s = .error () := by
  simp [upsert_events_batch, h]

/-- The batch upsert raises when staging the pair rows raises. -/
theorem upsert_eq_error_of_pairs (ci : Bool) (events : List EventData)
    (s : DBState) (te : List EventData)
    (h1 : insertTempEvents ci events = .ok te)
    (h2 : insertTempPairs ci (categoryPairs events) = .error ()) :
    upsert_events_batch ci events s = .error () := by
  simp [upsert_events_batch, h1, h2]

/-- The batch upsert commits the merged state when both stagings succeed. -/
theorem upsert_eq_ok (ci : Bool) (events : List EventData) (s : DBState)
    (te : List EventData) (tec : List (String × String))
    (h1 : insertTempEvents ci events = .ok te)
    (h2 : insertTempPairs ci (categoryPairs events) = .ok tec) :
    upsert_events_batch ci events s =
      .ok (upsertOkState ci te (tempCategoryNames ci events) tec s) := by
  simp [upsert_events_batch, h1, h2]

/-- A raised upsert rolls back: the state transformer is the identity. -/
theorem applyUpsertBatch_of_error (ci : Bool) (events : List EventData)
    (s : DBState) (h : upsert_events_batch ci events s = .error ()) :
    applyUpsertBatch ci events s = s := by
  simp [applyUpsertBatch, h]

/-- A successful upsert commits its result state. -/
theorem applyUpsertBatch_of_ok (ci : Bool) (events : List EventData)
    (s s2 : DBState) (h : upsert_events_batch ci events s = .ok s2) :
    applyUpsertBatch ci events s = s2 := by
  simp [applyUpsertBatch, h]

/-- The MERGE update branch keeps the match key of the target row. -/
theorem updateRow_event_id (r : EventRow) (e : EventData) :
    (updateRow r e).event_id = r.event_id := rfl

/-- Applying the MERGE on a single event twice gives the same event table
as applying it once. -/
theorem mergeOne_idem (ci : Bool) (rows : List EventRow) (e : EventData) :
    mergeOne ci (mergeOne ci rows e) e = mergeOne ci rows e := by
  have hpres : ∀ r : EventRow,
      ((fun r => if strEq ci r.event_id e.event_id then updateRow r e else r) r).event_id
        = r.event_id := by
    intro r
    by_cases hr : strEq ci r.event_id e.event_id = true <;> simp [hr, updateRow]
  have hff : ∀ r : EventRow,
      (fun r => if strEq ci r.event_id e.event_id then updateRow r e else r)
        ((fun r => if strEq ci r.event_id e.event_id then updateRow r e else r) r)
      = (fun r => if strEq ci r.event_id e.event_id then updateRow r e else r) r := by
    intro r
    by_cases hr : strEq ci r.event_id e.event_id = true
    · simp only [hr, if_true]
      have : strEq ci (updateRow r e).event_id e.event_id = true := by
        rw [updateRow_event_id]; exact hr
      simp only [this, if_true]
      rfl
    · simp only [hr]
      simp only [Bool.not_eq_true] at hr
      simp [hr]
  by_cases h : rows.any (fun r => strEq ci r.event_id e.event_id) = true
  · have hinner : mergeOne ci rows e = rows.map
        (fun r => if strEq ci r.event_id e.event_id then updateRow r e else r) := by
      rw [mergeOne, if_pos h]
    have hany2 : (rows.map
        (fun r => if strEq ci r.event_id e.event_id then updateRow r e else r)).any
        (fun r => strEq ci r.event_id e.event_id) = true := by
      rw [List.any_map]
      have : ((fun r : EventRow => strEq ci r.event_id e.event_id) ∘
          (fun r => if strEq ci r.event_id e.event_id then updateRow r e else r))
          = (fun r : EventRow => strEq ci r.event_id e.event_id) := by
        funext r
        simp only [Function.comp]
        rw [hpres]
      rw [this]
      exact h
    rw [hinner, mergeOne, if_pos hany2, List.map_map]
    exact List.map_congr_left (fun r _ => hff r)
  · have hfalse : ∀ r ∈ rows, strEq ci r.event_id e.event_id = false := by
      intro r hr
      rcases Bool.eq_false_or_eq_true (strEq ci r.event_id e.event_id) with h2 | h2
      · exact absurd (List.any_eq_true.mpr ⟨r, hr, h2⟩) h
      · exact h2
    have hinner : mergeOne ci rows e = rows ++ [eventRowOf e] := by
      rw [mergeOne, if_neg h]
    have hany2 : (rows ++ [eventRowOf e]).any
        (fun r => strEq ci r.event_id e.event_id) = true := by
      apply List.any_eq_true.mpr
      exact ⟨eventRowOf e, List.mem_append_right _ (List.mem_singleton.mpr rfl),
        strEq_refl ci e.event_id⟩
    rw [hinner, mergeOne, if_pos hany2, List.map_append]
    have h1 : rows.map
        (fun r => if strEq ci r.event_id e.event_id then updateRow r e else r) = rows := by
      have := List.map_congr_left
        (fun (r : EventRow) (hr : r ∈ rows) => by
          simp [hfalse r hr] :
          ∀ r ∈ rows, (if strEq ci r.event_id e.event_id then updateRow r e else r) = id r)
      rw [this, List.map_id]
    have h2 : [eventRowOf e].map
        (fun r => if strEq ci r.event_id e.event_id then updateRow r e else r)
        = [eventRowOf e] := by
      simp [strEq_refl, updateRow]
    rw [h1, h2]

/-- The event MERGE over any staged batch is the fold of `mergeOne`. -/
theorem mergeEvents_single (ci : Bool) (e : EventData) (rows : List EventRow) :
    mergeEvents ci [e] rows = mergeOne ci rows e := rfl

/-- The category MERGE never touches the event table. -/
theorem mergeCatOne_events (ci : Bool) (s : DBState) (n : String) :
    (mergeCatOne ci s n).events = s.events := by
  by_cases h : s.categories.any (fun c => strEq ci c.name n) = true <;>
    simp [mergeCatOne, h]

/-- The category MERGE never touches the link table. -/
theorem mergeCatOne_links (ci : Bool) (s : DBState) (n : String) :
    (mergeCatOne ci s n).links = s.links := by
  by_cases h : s.categories.any (fun c => strEq ci c.name n) = true <;>
    simp [mergeCatOne, h]

/-- The category MERGE over a name list never touches the event table. -/
theorem mergeCategories_events (ci : Bool) (names : List String) :
    ∀ s : DBState, (mergeCategories ci names s).events = s.events := by
  induction names with
  | nil => intro s; rfl
  | cons n ns ih =>
    intro s
    have h1 : mergeCategories ci (n :: ns) s
        = mergeCategories ci ns (mergeCatOne ci s n) := rfl
    rw [h1, ih, mergeCatOne_events]

/-- The category MERGE over a name list never touches the link table. -/
theorem mergeCategories_links (ci : Bool) (names : List String) :
    ∀ s : DBState, (mergeCategories ci names s).links = s.links := by
  induction names with
  | nil => intro s; rfl
  | cons n ns ih =>
    intro s
    have h1 : mergeCategories ci (n :: ns) s
        = mergeCategories ci ns (mergeCatOne ci s n) := rfl
    rw [h1, ih, mergeCatOne_links]

/-- The category MERGE only adds category rows, never removes one. -/
theorem mergeCatOne_mem (ci : Bool) (s : DBState) (n : String) (c : CategoryRow)
    (h : c ∈ s.categories) : c ∈ (mergeCatOne ci s n).categories := by
  by_cases hc : s.categories.any (fun x => strEq ci x.name n) = true
  · simpa [mergeCatOne, hc] using h
  · simp only [mergeCatOne, hc, if_false, Bool.not_eq_true]
    exact List.mem_append_left _ h

/-- The category MERGE over a name list only adds category rows. -/
theorem mergeCategories_mem (ci : Bool) (names : List String) :
    ∀ (s : DBState) (c : CategoryRow), c ∈ s.categories →
      c ∈ (mergeCategories ci names s).categories := by
  induction names with
  | nil => intro s c h; exact h
  | cons n ns ih =>
    intro s c h
    have h1 : mergeCategories ci (n :: ns) s
        = mergeCategories ci ns (mergeCatOne ci s n) := rfl
    rw [h1]
    exact ih _ c (mergeCatOne_mem ci s n c h)

/-- After merging a name, some category row matches it under the
collation. -/
theorem mergeCatOne_name_present (ci : Bool) (s : DBState) (n : String) :
    ∃ c ∈ (mergeCatOne ci s n).categories, strEq ci c.name n = true := by
  by_cases hc : s.categories.any (fun x => strEq ci x.name n) = true
  · obtain ⟨c, hc1, hc2⟩ := List.any_eq_true.mp hc
    exact ⟨c, mergeCatOne_mem ci s n c hc1, hc2⟩
  · refine ⟨⟨s.nextCategoryId, n⟩, ?_, strEq_refl ci n⟩
    simp only [mergeCatOne, hc, if_false, Bool.not_eq_true]
    exact List.mem_append_right _ (List.mem_singleton.mpr rfl)

/-- After the category MERGE, every staged name has a matching category
row. -/
theorem mergeCategories_name_present (ci : Bool) (names : List String) :
    ∀ (s : DBState), ∀ n ∈ names,
      ∃ c ∈ (mergeCategories ci names s).categories, strEq ci c.name n = true := by
  induction names with
  | nil => intro s n hn; cases hn
  | cons m ms ih =>
    intro s n hn
    have h1 : mergeCategories ci (m :: ms) s
        = mergeCategories ci ms (mergeCatOne ci s m) := rfl
    rcases List.mem_cons.mp hn with rfl | hn2
    · obtain ⟨c, hc, hceq⟩ := mergeCatOne_name_present ci s n
      rw [h1]
      exact ⟨c, mergeCategories_mem ci ms _ c hc, hceq⟩
    · rw [h1]
      exact ih _ n hn2

/-- Merging a name whose match already exists is a no-op. -/
theorem mergeCatOne_id (ci : Bool) (s : DBState) (n : String)
    (h : ∃ c ∈ s.categories, strEq ci c.name n = true) : mergeCatOne ci s n = s := by
  have h2 : s.categories.any (fun c => strEq ci c.name n) = true := by
    obtain ⟨c, h1, h2⟩ := h
    exact List.any_eq_true.mpr ⟨c, h1, h2⟩
  simp [mergeCatOne, h2]

/-- Merging names whose matches all already exist is a no-op. -/
theorem mergeCategories_id (ci : Bool) (names : List String) :
    ∀ s : DBState, (∀ n ∈ names, ∃ c ∈ s.categories, strEq ci c.name n = true) →
      mergeCategories ci names s = s := by
  induction names with
  | nil => intro s _; rfl
  | cons m ms ih =>
    intro s h
    have h1 : mergeCatOne ci s m = s := mergeCatOne_id ci s m (h m (List.mem_cons_self m ms))
    have h2 : mergeCategories ci (m :: ms) s
        = mergeCategories ci ms (mergeCatOne ci s m) := rfl
    rw [h2, h1]
    exact ih s (fun n hn => h n (List.mem_cons_of_mem _ hn))

/-- Every element kept by the fold of SELECT DISTINCT comes from the
accumulator or from the scanned list. -/
theorem dedupBy_aux_mem {α : Type} (eq : α → α → Bool) :
    ∀ (l acc : List α) (x : α),
      x ∈ l.foldl (fun acc x => if acc.any (fun y => eq y x) then acc else acc ++ [x]) acc →
      x ∈ acc ∨ x ∈ l := by
  intro l
  induction l with
  | nil => intro acc x h; exact Or.inl h
  | cons y ys ih =>
    intro acc x h
    rw [List.foldl_cons] at h
    rcases ih _ x h with h2 | h2
    · by_cases hc : acc.any (fun z => eq z y) = true
      · rw [if_pos hc] at h2
        exact Or.inl h2
      · rw [if_neg hc] at h2
        rcases List.mem_append.mp h2 with h3 | h3
        · exact Or.inl h3
        · exact Or.inr (List.mem_cons.mpr (Or.inl (List.mem_singleton.mp h3)))
    · exact Or.inr (List.mem_cons_of_mem _ h2)

/-- SELECT DISTINCT returns a subset of its input rows. -/
theorem dedupBy_subset {α : Type} (eq : α → α → Bool) (l : List α) (x : α)
    (h : x ∈ dedupBy eq l) : x ∈ l := by
  rw [dedupBy] at h
  rcases dedupBy_aux_mem eq l [] x h with h2 | h2
  · cases h2
  · exact h2

/-- The fold of SELECT DISTINCT preserves pairwise distinctness of the
accumulator. -/
theorem dedupBy_aux_pairwise {α : Type} (eq : α → α → Bool) :
    ∀ (l acc : List α), acc.Pairwise (fun a b => eq a b = false) →
      (l.foldl (fun acc x => if acc.any (fun y => eq y x) then acc else acc ++ [x])
        acc).Pairwise (fun a b => eq a b = false) := by
  intro l
  induction l with
  | nil => intro acc h; exact h
  | cons y ys ih =>
    intro acc h
    rw [List.foldl_cons]
    apply ih
    by_cases hc : acc.any (fun z => eq z y) = true
    · rw [if_pos hc]; exact h
    · rw [if_neg hc]
      refine List.pairwise_append.mpr ⟨h, List.pairwise_singleton _ _, ?_⟩
      intro a ha b hb
      rw [List.mem_singleton] at hb
      subst hb
      rcases Bool.eq_false_or_eq_true (eq a b) with h2 | h2
      · exact absurd (List.any_eq_true.mpr ⟨a, ha, h2⟩) hc
      · exact h2

/-- SELECT DISTINCT produces pairwise-distinct rows. -/
theorem dedupBy_pairwise {α : Type} (eq : α → α → Bool) (l : List α) :
    (dedupBy eq l).Pairwise (fun a b => eq a b = false) := by
  rw [dedupBy]
  exact dedupBy_aux_pairwise eq l [] (List.Pairwise.nil)

/-- The link DELETE is a no-op when every in-batch link is still wanted. -/
theorem deleteLinks_id (ci : Bool) (te : List EventData)
    (tec : List (String × String)) (cats : List CategoryRow) (links : List LinkRow)
    (h : ∀ l ∈ links, te.any (fun t => strEq ci t.event_id l.event_id) = true →
      linkDesired ci tec cats l = true) :
    deleteLinks ci te tec cats links = links := by
  rw [deleteLinks]
  apply List.filter_eq_self.mpr
  intro l hl
  cases hb : te.any (fun t => strEq ci t.event_id l.event_id) with
  | false => simp [hb]
  | true => simp [hb, h l hl hb]

/-- The link INSERT is a no-op when every candidate already exists. -/
theorem insertLinks_id (ci : Bool) (tec : List (String × String))
    (cats : List CategoryRow) (links : List LinkRow)
    (h : ∀ c ∈ linkCandidates ci tec cats, links.any (fun l => linkEq ci l c) = true) :
    insertLinks ci tec cats links = links := by
  rw [insertLinks]
  have h2 : (linkCandidates ci tec cats).filter
      (fun c => !(links.any (fun l => linkEq ci l c))) = [] := by
    apply List.filter_eq_nil_iff.mpr
    intro c hc
    simp [h c hc]
  rw [h2, List.append_nil]

/-- Shape of a link candidate: a staged pair joined with a matching
category row. -/
theorem linkCandidates_mem (ci : Bool) (tec : List (String × String))
    (cats : List CategoryRow) (l : LinkRow) (h : l ∈ linkCandidates ci tec cats) :
    ∃ p ∈ tec, ∃ c ∈ cats, strEq ci c.name p.2 = true ∧
      l = ⟨p.1, c.category_id⟩ := by
  have h2 := dedupBy_subset _ _ _ h
  rw [List.mem_flatMap] at h2
  obtain ⟨p, hp, hl⟩ := h2
  rw [List.mem_map] at hl
  obtain ⟨c, hc, hlc⟩ := hl
  rw [List.mem_filter] at hc
  exact ⟨p, hp, c, hc.1, hc.2, hlc.symm⟩

/-- Every link candidate is wanted by the batch that generated it. -/
theorem linkCandidates_desired (ci : Bool) (tec : List (String × String))
    (cats : List CategoryRow) (l : LinkRow) (h : l ∈ linkCandidates ci tec cats) :
    linkDesired ci tec cats l = true := by
  obtain ⟨p, hp, c, hc, hname, hl⟩ := linkCandidates_mem ci tec cats l h
  subst hl
  rw [linkDesired]
  apply List.any_eq_true.mpr
  refine ⟨p, hp, List.any_eq_true.mpr ⟨c, hc, ?_⟩⟩
  simp [hname, strEq_refl]

/-- After one DELETE-then-INSERT synchronization pass, every link of a
batched event is wanted by the batch. -/
theorem links_after_desired (ci : Bool) (te : List EventData)
    (tec : List (String × String)) (cats : List CategoryRow) (links0 : List LinkRow) :
    ∀ l ∈ insertLinks ci tec cats (deleteLinks ci te tec cats links0),
      te.any (fun t => strEq ci t.event_id l.event_id) = true →
      linkDesired ci tec cats l = true := by
  intro l hl hbatch
  rw [insertLinks] at hl
  rcases List.mem_append.mp hl with h1 | h1
  · rw [deleteLinks] at h1
    have h2 := (List.mem_filter.mp h1).2
    simp only [hbatch, Bool.true_and, Bool.not_not] at h2
    exact h2
  · exact linkCandidates_desired ci tec cats l (List.mem_filter.mp h1).1

/-- After one synchronization pass, every candidate link of the batch
exists in the link table. -/
theorem links_after_candidates_present (ci : Bool) (te : List EventData)
    (tec : List (String × String)) (cats : List CategoryRow) (links0 : List LinkRow) :
    ∀ c ∈ linkCandidates ci tec cats,
      (insertLinks ci tec cats (deleteLinks ci te tec cats links0)).any
        (fun l => linkEq ci l c) = true := by
  intro c hc
  by_cases hex : (deleteLinks ci te tec cats links0).any (fun l => linkEq ci l c) = true
  · obtain ⟨l, hl, hlc⟩ := List.any_eq_true.mp hex
    refine List.any_eq_true.mpr ⟨l, ?_, hlc⟩
    rw [insertLinks]
    exact List.mem_append_left _ hl
  · have hfilter : c ∈ (linkCandidates ci tec cats).filter
        (fun c2 => !((deleteLinks ci te tec cats links0).any (fun l => linkEq ci l c2))) := by
      refine List.mem_filter.mpr ⟨hc, ?_⟩
      simp only [Bool.not_eq_true] at hex
      simp [hex]
    refine List.any_eq_true.mpr ⟨c, ?_, linkEq_refl ci c⟩
    rw [insertLinks]
    exact List.mem_append_right _ hfilter

/-- Running the link synchronization pass twice with the same staged batch
and category table gives the same link table as running it once. -/
theorem linkSync_idem (ci : Bool) (te : List EventData)
    (tec : List (String × String)) (cats : List CategoryRow) (links0 : List LinkRow) :
    insertLinks ci tec cats (deleteLinks ci te tec cats
      (insertLinks ci tec cats (deleteLinks ci te tec cats links0)))
    = insertLinks ci tec cats (deleteLinks ci te tec cats links0) := by
  have hdel : deleteLinks ci te tec cats
      (insertLinks ci tec cats (deleteLinks ci te tec cats links0))
      = insertLinks ci tec cats (deleteLinks ci te tec cats links0) :=
    deleteLinks_id ci te tec cats _ (links_after_desired ci te tec cats links0)
  rw [hdel]
  exact insertLinks_id ci tec cats _ (links_after_candidates_present ci te tec cats links0)

/-- Extensionality for database states. -/
theorem DBState_ext (a b : DBState) (h1 : a.events = b.events)
    (h2 : a.categories = b.categories) (h3 : a.links = b.links)
    (h4 : a.nextCategoryId = b.nextCategoryId) : a = b := by
  cases a
  cases b
  simp_all

/-- Committing the same single staged event twice gives the same state as
committing it once, whatever the staged name and pair tables are. -/
theorem upsertOkState_single_idem (ci : Bool) (e : EventData) (tc : List String)
    (tec : List (String × String)) (s : DBState) :
    upsertOkState ci [e] tc tec (upsertOkState ci [e] tc tec s) =
      upsertOkState ci [e] tc tec s := by
  have hcat : (upsertOkState ci [e] tc tec s).categories
      = (mergeCategories ci tc
          { s with events := mergeEvents ci [e] s.events }).categories := rfl
  have hSevents : (upsertOkState ci [e] tc tec s).events = mergeOne ci s.events e := by
    show (mergeCategories ci tc { s with events := mergeEvents ci [e] s.events }).events
      = mergeOne ci s.events e
    rw [mergeCategories_events]
    rfl
  have hpresent : ∀ n ∈ tc, ∃ c ∈ (upsertOkState ci [e] tc tec s).categories,
      strEq ci c.name n = true := by
    rw [hcat]
    exact fun n hn => mergeCategories_name_present ci tc _ n hn
  have hmid : mergeCategories ci tc
      { upsertOkState ci [e] tc tec s with
        events := mergeEvents ci [e] (upsertOkState ci [e] tc tec s).events }
      = { upsertOkState ci [e] tc tec s with
          events := mergeEvents ci [e] (upsertOkState ci [e] tc tec s).events } := by
    apply mergeCategories_id
    intro n hn
    exact hpresent n hn
  have hunfold : upsertOkState ci [e] tc tec (upsertOkState ci [e] tc tec s)
      = { mergeCategories ci tc
            { upsertOkState ci [e] tc tec s with
              events := mergeEvents ci [e] (upsertOkState ci [e] tc tec s).events } with
          links := insertLinks ci tec
            (mergeCategories ci tc
              { upsertOkState ci [e] tc tec s with
                events := mergeEvents ci [e]
                  (upsertOkState ci [e] tc tec s).events }).categories
            (deleteLinks ci [e] tec
              (mergeCategories ci tc
                { upsertOkState ci [e] tc tec s with
                  events := mergeEvents ci [e]
                    (upsertOkState ci [e] tc tec s).events }).categories
              (mergeCategories ci tc
                { upsertOkState ci [e] tc tec s with
                  events := mergeEvents ci [e]
                    (upsertOkState ci [e] tc tec s).events }).links) } := rfl
  rw [hunfold, hmid]
  apply DBState_ext
  · show mergeEvents ci [e] (upsertOkState ci [e] tc tec s).events
      = (upsertOkState ci [e] tc tec s).events
    rw [hSevents]
    exact mergeOne_idem ci s.events e
  · rfl
  · show insertLinks ci tec (upsertOkState ci [e] tc tec s).categories
      (deleteLinks ci [e] tec (upsertOkState ci [e] tc tec s).categories
        (upsertOkState ci [e] tc tec s).links)
      = (upsertOkState ci [e] tc tec s).links
    exact linkSync_idem ci [e] tec _ _
  · rfl

/-- The function applied by the MERGE update branch preserves the match
key of every row. -/
theorem mergeUpd_event_id (ci : Bool) (e : EventData) (r : EventRow) :
    (if strEq ci r.event_id e.event_id then updateRow r e else r).event_id
      = r.event_id := by
  by_cases hr : strEq ci r.event_id e.event_id = true <;> simp [hr, updateRow]

/-- The event MERGE preserves key-distinctness of the event table. -/
theorem mergeOne_pairwise (ci : Bool) (rows : List EventRow) (e : EventData)
    (h : rows.Pairwise (fun a b => strEq ci a.event_id b.event_id = false)) :
    (mergeOne ci rows e).Pairwise
      (fun a b => strEq ci a.event_id b.event_id = false) := by
  by_cases hc : rows.any (fun r => strEq ci r.event_id e.event_id) = true
  · rw [mergeOne, if_pos hc, List.pairwise_map]
    refine h.imp ?_
    intro a b hab
    rw [mergeUpd_event_id, mergeUpd_event_id]
    exact hab
  · rw [mergeOne, if_neg hc]
    refine List.pairwise_append.mpr ⟨h, List.pairwise_singleton _ _, ?_⟩
    intro a ha b hb
    rw [List.mem_singleton] at hb
    subst hb
    show strEq ci a.event_id e.event_id = false
    rcases Bool.eq_false_or_eq_true (strEq ci a.event_id e.event_id) with h2 | h2
    · exact absurd (List.any_eq_true.mpr ⟨a, ha, h2⟩) hc
    · exact h2

/-- The category MERGE preserves key integrity of the category table:
distinct names, distinct surrogate ids, ids below the IDENTITY counter. -/
theorem mergeCatOne_WFcats (ci : Bool) (s : DBState) (n : String)
    (h1 : s.categories.Pairwise (fun a b => strEq ci a.name b.name = false))
    (h2 : s.categories.Pairwise (fun a b => a.category_id ≠ b.category_id))
    (h3 : ∀ c ∈ s.categories, c.category_id < s.nextCategoryId) :
    (mergeCatOne ci s n).categories.Pairwise
        (fun a b => strEq ci a.name b.name = false) ∧
    (mergeCatOne ci s n).categories.Pairwise
        (fun a b => a.category_id ≠ b.category_id) ∧
    (∀ c ∈ (mergeCatOne ci s n).categories,
        c.category_id < (mergeCatOne ci s n).nextCategoryId) := by
  by_cases hc : s.categories.any (fun c => strEq ci c.name n) = true
  · simp only [mergeCatOne, hc, if_true]
    exact ⟨h1, h2, h3⟩
  · simp only [mergeCatOne, hc, if_false, Bool.not_eq_true]
    refine ⟨?_, ?_, ?_⟩
    · refine List.pairwise_append.mpr ⟨h1, List.pairwise_singleton _ _, ?_⟩
      intro a ha b hb
      rw [List.mem_singleton] at hb
      subst hb
      show strEq ci a.name n = false
      rcases Bool.eq_false_or_eq_true (strEq ci a.name n) with hf | hf
      · exact absurd (List.any_eq_true.mpr ⟨a, ha, hf⟩) hc
      · exact hf
    · refine List.pairwise_append.mpr ⟨h2, List.pairwise_singleton _ _, ?_⟩
      intro a ha b hb
      rw [List.mem_singleton] at hb
      subst hb
      exact Nat.ne_of_lt (h3 a ha)
    · intro c hcm
      rcases List.mem_append.mp hcm with hm | hm
      · exact Nat.lt_trans (h3 c hm) (Nat.lt_succ_self _)
      · rw [List.mem_singleton] at hm
        subst hm
        exact Nat.lt_succ_self _

/-- The category MERGE over a name list preserves key integrity of the
category table. -/
theorem mergeCategories_WFcats (ci : Bool) (names : List String) :
    ∀ s : DBState,
      s.categories.Pairwise (fun a b => strEq ci a.name b.name = false) →
      s.categories.Pairwise (fun a b => a.category_id ≠ b.category_id) →
      (∀ c ∈ s.categories, c.category_id < s.nextCategoryId) →
      (mergeCategories ci names s).categories.Pairwise
          (fun a b => strEq ci a.name b.name = false) ∧
      (mergeCategories ci names s).categories.Pairwise
          (fun a b => a.category_id ≠ b.category_id) ∧
      (∀ c ∈ (mergeCategories ci names s).categories,
          c.category_id < (mergeCategories ci names s).nextCategoryId) := by
  induction names with
  | nil => intro s h1 h2 h3; exact ⟨h1, h2, h3⟩
  | cons m ms ih =>
    intro s h1 h2 h3
    have hstep := mergeCatOne_WFcats ci s m h1 h2 h3
    have hrec : mergeCategories ci (m :: ms) s
        = mergeCategories ci ms (mergeCatOne ci s m) := rfl
    rw [hrec]
    exact ih _ hstep.1 hstep.2.1 hstep.2.2

/-- The link DELETE preserves key-distinctness of the link table. -/
theorem deleteLinks_pairwise (ci : Bool) (te : List EventData)
    (tec : List (String × String)) (cats : List CategoryRow) (links : List LinkRow)
    (h : links.Pairwise (fun a b => linkEq ci a b = false)) :
    (deleteLinks ci te tec cats links).Pairwise
      (fun a b => linkEq ci a b = false) := by
  rw [deleteLinks]
  exact h.sublist (List.filter_sublist _)

/-- The link INSERT preserves key-distinctness of the link table. -/
theorem insertLinks_pairwise (ci : Bool) (tec : List (String × String))
    (cats : List CategoryRow) (links : List LinkRow)
    (h : links.Pairwise (fun a b => linkEq ci a b = false)) :
    (insertLinks ci tec cats links).Pairwise
      (fun a b => linkEq ci a b = false) := by
  rw [insertLinks]
  refine List.pairwise_append.mpr ⟨h, ?_, ?_⟩
  · exact (dedupBy_pairwise (linkEq ci) _).sublist (List.filter_sublist _)
  · intro a ha b hb
    have h2 := (List.mem_filter.mp hb).2
    simp only [Bool.not_eq_true'] at h2
    have hall := List.any_eq_false.mp h2
    have := hall a ha
    rcases Bool.eq_false_or_eq_true (linkEq ci a b) with hf | hf
    · exact absurd hf this
    · exact hf

/-- Committing a single staged event preserves the key integrity of all
three tables. -/
theorem upsertOkState_single_WF (ci : Bool) (e : EventData) (tc : List String)
    (tec : List (String × String)) (s : DBState) (h : WF ci s) :
    WF ci (upsertOkState ci [e] tc tec s) := by
  obtain ⟨hev, hcn, hcid, hbound, hlk⟩ := h
  have hs1cats : ({ s with events := mergeEvents ci [e] s.events } : DBState).categories
      = s.categories := rfl
  have hcats := mergeCategories_WFcats ci tc
    { s with events := mergeEvents ci [e] s.events } hcn hcid hbound
  have hlinksM : (mergeCategories ci tc
      { s with events := mergeEvents ci [e] s.events }).links = s.links := by
    rw [mergeCategories_links]
  refine ⟨?_, ?_, ?_, ?_, ?_⟩
  · show (upsertOkState ci [e] tc tec s).events.Pairwise _
    have : (upsertOkState ci [e] tc tec s).events = mergeOne ci s.events e := by
      show (mergeCategories ci tc
        { s with events := mergeEvents ci [e] s.events }).events = mergeOne ci s.events e
      rw [mergeCategories_events]
      rfl
    rw [this]
    exact mergeOne_pairwise ci s.events e hev
  · exact hcats.1
  · exact hcats.2.1
  · exact hcats.2.2
  · show (insertLinks ci tec (mergeCategories ci tc
        { s with events := mergeEvents ci [e] s.events }).categories
      (deleteLinks ci [e] tec (mergeCategories ci tc
        { s with events := mergeEvents ci [e] s.events }).categories
        (mergeCategories ci tc
          { s with events := mergeEvents ci [e] s.events }).links)).Pairwise _
    rw [hlinksM]
    exact insertLinks_pairwise ci tec _ _
      (deleteLinks_pairwise ci [e] tec _ s.links hlk)

/-- C1: upsert idempotence.  For every normalized event and every database
state, applying the batch upsert of that event twice with identical content
commits exactly the state committed by applying it once (so the second
application changes no stored field and adds no row), and — given key
integrity of the initial state — the committed state again has events keyed
by event_id, categories keyed by name and id, and links keyed by
(event_id, category_id), so no duplicate event or link row is ever
created. -/
theorem upsert_idempotent_and_keyed (ci : Bool) (e : EventData) (s : DBState) :
    applyUpsertBatch ci [e] (applyUpsertBatch ci [e] s) = applyUpsertBatch ci [e] s ∧
    (WF ci s → WF ci (applyUpsertBatch ci [e] s)) := by
  by_cases hv : rowValid e = true
  · cases hp : insertTempPairs ci (categoryPairs [e]) with
    | error u =>
      cases u
      have herr : ∀ t : DBState, upsert_events_batch ci [e] t = .error () := fun t =>
        upsert_eq_error_of_pairs ci [e] t [e]
          (by rw [insertTempEvents_single, if_pos hv]) hp
      have h1 : applyUpsertBatch ci [e] s = s :=
        applyUpsertBatch_of_error _ _ _ (herr s)
      refine ⟨?_, ?_⟩
      · rw [h1]
        exact h1
      · intro hw
        rw [h1]
        exact hw
    | ok tec =>
      have hok : ∀ t : DBState, upsert_events_batch ci [e] t
          = .ok (upsertOkState ci [e] (tempCategoryNames ci [e]) tec t) := fun t =>
        upsert_eq_ok ci [e] t [e] tec
          (by rw [insertTempEvents_single, if_pos hv]) hp
      have h1 : applyUpsertBatch ci [e] s
          = upsertOkState ci [e] (tempCategoryNames ci [e]) tec s :=
        applyUpsertBatch_of_ok _ _ _ _ (hok s)
      refine ⟨?_, ?_⟩
      · rw [h1, applyUpsertBatch_of_ok _ _ _ _ (hok _)]
        exact upsertOkState_single_idem ci e (tempCategoryNames ci [e]) tec s
      · intro hw
        rw [h1]
        exact upsertOkState_single_WF ci e (tempCategoryNames ci [e]) tec s hw
  · have herr : ∀ t : DBState, upsert_events_batch ci [e] t = .error () := fun t =>
      upsert_eq_error_of_events ci [e] t (by rw [insertTempEvents_single, if_neg hv])
    have h1 : applyUpsertBatch ci [e] s = s :=
      applyUpsertBatch_of_error _ _ _ (herr s)
    refine ⟨?_, ?_⟩
    · rw [h1]
      exact h1
    · intro hw
      rw [h1]
      exact hw

/-- C1 witness: the theorem instantiated on a concrete event over the empty
store, with the key-integrity hypothesis discharged there. -/
theorem upsert_idempotent_and_keyed_witness :
    applyUpsertBatch true [sampleEvent] (applyUpsertBatch true [sampleEvent] emptyDB)
      = applyUpsertBatch true [sampleEvent] emptyDB ∧
    WF true (applyUpsertBatch true [sampleEvent] emptyDB) :=
  ⟨(upsert_idempotent_and_keyed true sampleEvent emptyDB).1,
   (upsert_idempotent_and_keyed true sampleEvent emptyDB).2
     (by simp [WF, emptyDB])⟩

/-- C10: the single-event operation `upsert_event e` has exactly the same
effect and result as the batch operation `upsert_events_batch [e]` on every
database state — the source delegates one to the other verbatim. -/
theorem upsert_event_refines_batch (ci : Bool) (e : EventData) (s : DBState) :
    upsert_event ci e s = upsert_events_batch ci [e] s := rfl

/-- C2: the category list `["Work", "work", "WORK", "Meeting"]` does not
produce the stored set `{"Work", "Meeting"}` of size 2.  Under a
case-insensitive collation (the SQL Server default) the insert into the
temp link table violates its primary key and the whole upsert fails with an
error; under a case-sensitive collation all four casings are stored as
distinct category rows. -/
theorem duplicate_categories_failing :
    upsert_events_batch true [dupCatEvent] emptyDB = .error () ∧
    ((applyUpsertBatch false [dupCatEvent] emptyDB).categories.map CategoryRow.name)
      = ["Work", "work", "WORK", "Meeting"] := by
  refine ⟨by decide, by decide⟩

/-- C3 counterexample: re-upserting `E1` with its category changed from
`Work` to `Home` is a category-link mutation after which the category row
`Work` remains in the category table with zero remaining links — the
claimed orphan sweep does not exist in the code. -/
theorem orphan_category_persists_cex :
    ∃ c ∈ afterRelink.categories,
      ∀ l ∈ afterRelink.links, l.category_id ≠ c.category_id := by decide

/-- C4: an event whose end instant (50) precedes its start instant (100) is
not rejected — `process_event` reports success and the row is stored with
`end_date < start_date`, contradicting the repository's own unit test
`test_process_event_invalid_dates` and the spec's invariant. -/
theorem inverted_range_stored :
    (process_event true 0 rawInverted "a@x.com" emptyDB).1 = true ∧
    ((process_event true 0 rawInverted "a@x.com" emptyDB).2.events.map
        (fun r => (r.start_date, r.end_date))) = [(100, 50)] := ⟨rfl, rfl⟩

/-- C5 counterexample: an event with a present id but a missing subject is
not rejected — it is processed successfully and stored with an empty
subject. -/
theorem missing_subject_not_rejected_cex :
    (process_event true 0 rawNoSubject "a@x.com" emptyDB).1 = true ∧
    ((process_event true 0 rawNoSubject "a@x.com" emptyDB).2.events.map
        EventRow.subject) = [""] := ⟨rfl, rfl⟩

/-- C6 counterexample: a 1001-character body content is stored at full
length — the claimed truncation of the description to 1000 units does not
happen anywhere in the code. -/
theorem description_not_truncated_cex :
    (process_event true 0 rawLongDescription "a@x.com" emptyDB).1 = true ∧
    ((process_event true 0 rawLongDescription "a@x.com" emptyDB).2.events.map
        (fun r => r.description.length)) = [1001] := ⟨rfl, rfl⟩

/-- C7 counterexample: the batch request that the event fetch actually uses
performs no retry and no sleep — rate limited on attempt 1, it returns a
failure immediately, even though one retry would succeed (as the unused
retry helper demonstrates on the same response sequence). -/
theorem batch_fetch_no_retry_cex :
    make_batch_request rateLimitedFirstResponses = (none, []) ∧
    make_request_with_retry rateLimitedFirstResponses = (some 1, [5]) := ⟨rfl, rfl⟩

/-- C3 amended: the upsert performs no orphan-category sweep — it never
deletes a category row at all, so every category row present before a
successful batch upsert is still present after it, links or no links. -/
theorem categories_never_deleted (ci : Bool) (events : List EventData)
    (s s2 : DBState) (h : upsert_events_batch ci events s = .ok s2) :
    ∀ c ∈ s.categories, c ∈ s2.categories := by
  intro c hc
  cases hte : insertTempEvents ci events with
  | error u =>
    cases u
    rw [upsert_eq_error_of_events ci events s hte] at h
    cases h
  | ok te =>
    cases htec : insertTempPairs ci (categoryPairs events) with
    | error u =>
      cases u
      rw [upsert_eq_error_of_pairs ci events s te hte htec] at h
      cases h
    | ok tec =>
      rw [upsert_eq_ok ci events s te tec hte htec] at h
      injection h with h2
      subst h2
      show c ∈ (mergeCategories ci (tempCategoryNames ci events)
        { s with events := mergeEvents ci te s.events }).categories
      exact mergeCategories_mem ci _ _ c hc

/-- C3 amended, witness: the `Work` category row survives the re-upsert
that unlinks it. -/
theorem categories_never_deleted_witness :
    upsert_events_batch true [sampleEventHome]
        (applyUpsertBatch true [sampleEvent] emptyDB) = .ok afterRelink ∧
    (⟨0, "Work"⟩ : CategoryRow) ∈
        (applyUpsertBatch true [sampleEvent] emptyDB).categories ∧
    (⟨0, "Work"⟩ : CategoryRow) ∈ afterRelink.categories :=
  ⟨by decide, by decide,
   categories_never_deleted true [sampleEventHome]
     (applyUpsertBatch true [sampleEvent] emptyDB) afterRelink (by decide)
     ⟨0, "Work"⟩ (by decide)⟩

/-- C5 amended: processing rejects an event (no database write) when its
identifier is missing or empty; a missing or empty subject does not by
itself cause rejection — when the upsert succeeds the event is reported as
processed with whatever subject the normalization produced (the empty
string for a missing subject). -/
theorem required_field_rejection_amended (ci : Bool) (now : Int) (ev : RawEvent)
    (ue : String) (s : DBState) :
    ((ev.id = none ∨ ev.id = some "") → process_event ci now ev ue s = (false, s)) ∧
    (∀ (eid : String) (s2 : DBState), ev.id = some eid → eid ≠ "" →
      upsert_event ci (normalizedOf now ev ue eid) s = .ok s2 →
      process_event ci now ev ue s = (true, s2)) := by
  constructor
  · rintro (h | h) <;> simp [process_event, h]
  · intro eid s2 hid hne hup
    simp [process_event, hid, hne, hup]

/-- C5 amended, witness: a missing id is rejected with no write; a missing
subject is processed and stored with an empty subject. -/
theorem required_field_rejection_amended_witness :
    process_event true 0 rawNoId "a@x.com" emptyDB = (false, emptyDB) ∧
    process_event true 0 rawNoSubject "a@x.com" emptyDB = (true, dbAfterNoSubject) :=
  ⟨(required_field_rejection_amended true 0 rawNoId "a@x.com" emptyDB).1 (Or.inl rfl),
   (required_field_rejection_amended true 0 rawNoSubject "a@x.com" emptyDB).2
     "E2" dbAfterNoSubject rfl (by decide) (by decide)⟩

/-- Staging the event rows fails whenever some row violates its column
constraints. -/
theorem insertTempEventsAux_error_of_invalid (ci : Bool) :
    ∀ (events acc : List EventData), (∃ e ∈ events, rowValid e = false) →
      insertTempEventsAux ci acc events = .error () := by
  intro events
  induction events with
  | nil =>
    rintro acc ⟨e, he, _⟩
    cases he
  | cons x xs ih =>
    rintro acc ⟨e, he, hval⟩
    rcases List.mem_cons.mp he with rfl | hmem
    · simp [insertTempEventsAux, hval]
    · cases hx : rowValid x with
      | false => simp [insertTempEventsAux, hx]
      | true =>
        by_cases hd : acc.any (fun p => strEq ci p.event_id x.event_id) = true
        · simp [insertTempEventsAux, hx, hd]
        · simp only [insertTempEventsAux, hx, Bool.not_true, Bool.false_eq_true,
            if_false, hd]
          exact ih _ ⟨e, hmem, hval⟩

/-- An event whose subject exceeds the 255-unit column width makes the
whole batch upsert raise. -/
theorem upsert_error_of_long_subject (ci : Bool) (events : List EventData)
    (s : DBState) (e : EventData) (hmem : e ∈ events)
    (hlen : 255 < e.subject.length) :
    upsert_events_batch ci events s = .error () := by
  have hd : decide (e.subject.length ≤ 255) = false :=
    decide_eq_false (Nat.not_le.mpr hlen)
  have hval : rowValid e = false := by
    simp [rowValid, hd]
  have herr : insertTempEvents ci events = .error () := by
    rw [insertTempEvents]
    exact insertTempEventsAux_error_of_invalid ci events [] ⟨e, hmem, hval⟩
  exact upsert_eq_error_of_events ci events s herr

/-- C6 amended: normalization performs no truncation — the normalized
subject and description are exactly the raw subject and raw body content
(missing values null-safely default to the empty string); and instead of
truncating, a subject longer than the 255-unit column width makes the
database upsert fail, so the event is not stored at all. -/
theorem no_truncation_amended :
    (∀ (now : Int) (ev : RawEvent) (ue eid : String),
        (normalizedOf now ev ue eid).subject = ev.subject.getD "" ∧
        (normalizedOf now ev ue eid).description = ev.body_content.getD "") ∧
    (∀ (ci : Bool) (events : List EventData) (s : DBState) (e : EventData),
        e ∈ events → 255 < e.subject.length →
        upsert_events_batch ci events s = .error ()) :=
  ⟨fun _ _ _ _ => ⟨rfl, rfl⟩, upsert_error_of_long_subject⟩

/-- C6 amended, witness: a missing subject and a present body pass through
untouched, and a 256-character subject makes the upsert raise. -/
theorem no_truncation_amended_witness :
    ((normalizedOf 0 rawNoSubject "a@x.com" "E2").subject = "" ∧
     (normalizedOf 0 rawNoSubject "a@x.com" "E2").description = "Body") ∧
    upsert_events_batch true [longSubjectEvent] emptyDB = .error () :=
  ⟨no_truncation_amended.1 0 rawNoSubject "a@x.com" "E2",
   no_truncation_amended.2 true [longSubjectEvent] emptyDB longSubjectEvent
     (by decide) (by decide)⟩

/-- C7 amended: the bounded rate-limit retry (server-advised sleep or the
5-second default, at most 3 attempts, exactly 2 sleeps when attempt 3
succeeds, failure once the bound is exhausted) is implemented by the unused
helper `_make_request_with_retry`; the batch request actually issued by the
event fetch performs no retry and no sleep — any non-truthy response,
a rate-limit signal included, immediately yields a failure for that
mailbox. -/
theorem rate_limit_retry_amended :
    (∀ (responses : Nat → ApiResponse) (r0 r1 : Option Nat),
        responses 0 = .rateLimited r0 → responses 1 = .rateLimited r1 →
        responses 2 = .ok →
        make_request_with_retry responses = (some 2, [r0.getD 5, r1.getD 5])) ∧
    (∀ responses : Nat → ApiResponse,
        (∀ i, i < 3 → ∃ r, responses i = ApiResponse.rateLimited r) →
        (make_request_with_retry responses).1 = none) ∧
    (∀ responses : Nat → ApiResponse, responses 0 ≠ .ok →
        make_batch_request responses = (none, [])) := by
  refine ⟨?_, ?_, ?_⟩
  · intro responses r0 r1 h0 h1 h2
    simp [make_request_with_retry, retryAux, h0, h1, h2]
  · intro responses h
    obtain ⟨r0, h0⟩ := h 0 (by omega)
    obtain ⟨r1, h1⟩ := h 1 (by omega)
    obtain ⟨r2, h2⟩ := h 2 (by omega)
    simp [make_request_with_retry, retryAux, h0, h1, h2]
  · intro responses h
    cases hr : responses 0 with
    | ok => exact absurd hr h
    | rateLimited r => simp [make_batch_request, hr]
    | httpError st => simp [make_batch_request, hr]
    | exn => simp [make_batch_request, hr]

/-- C7 amended, witness: two advised 7-second sleeps then success on the
third attempt; permanent rate limiting gives failure; the batch request
fails at once. -/
theorem rate_limit_retry_amended_witness :
    make_request_with_retry rateLimitedTwice = (some 2, [7, 7]) ∧
    (make_request_with_retry alwaysRateLimited).1 = none ∧
    make_batch_request alwaysRateLimited = (none, []) :=
  ⟨rate_limit_retry_amended.1 rateLimitedTwice (some 7) (some 7) rfl rfl rfl,
   rate_limit_retry_amended.2.1 alwaysRateLimited (fun _ _ => ⟨some 7, rfl⟩),
   rate_limit_retry_amended.2.2 alwaysRateLimited (by decide)⟩

/-- Splitting the first page off a shifted page-concatenation. -/
theorem flatMap_range_shift {α : Type} (f : Nat → List α) :
    ∀ (M idx : Nat),
      f idx ++ (List.range M).flatMap (fun i => f (idx + 1 + i))
        = (List.range (M + 1)).flatMap (fun i => f (idx + i)) := by
  intro M
  induction M with
  | zero =>
    intro idx
    simp [List.range_succ]
  | succ M ih =>
    intro idx
    rw [List.range_succ, List.flatMap_append]
    rw [show List.range (M + 1 + 1) = List.range (M + 1 + 1) from rfl]
    conv_rhs => rw [List.range_succ, List.flatMap_append]
    rw [← List.append_assoc, ih idx]
    simp [show idx + 1 + M = idx + (M + 1) from by omega]

/-- The pagination loop, started at any page index with enough fuel,
terminates on the first empty page and returns the accumulated events
followed by the pages in order, having issued one request per page plus
the final empty one. -/
theorem fetchPagesAux_spec (pages : Nat → PageResult) (f : Nat → List RawEvent) :
    ∀ (N fuel idx : Nat) (acc : List RawEvent) (reqs : Nat), N < fuel →
      (∀ i ≤ N, pages (idx + i) = .ok (f (idx + i))) →
      (∀ i < N, f (idx + i) ≠ []) →
      f (idx + N) = [] →
      fetchPagesAux pages fuel idx acc reqs =
        some (some (acc ++ (List.range N).flatMap (fun i => f (idx + i))), reqs + N + 1) := by
  intro N
  induction N with
  | zero =>
    intro fuel idx acc reqs hfuel hpages hne hN
    cases fuel with
    | zero => omega
    | succ fu =>
      have hp0 : pages idx = .ok (f idx) := by simpa using hpages 0 (Nat.le_refl 0)
      have hf0 : f idx = [] := by simpa using hN
      rw [hf0] at hp0
      simp [fetchPagesAux, hp0]
  | succ M ih =>
    intro fuel idx acc reqs hfuel hpages hne hN
    cases fuel with
    | zero => omega
    | succ fu =>
      have hp0 : pages idx = .ok (f idx) := by simpa using hpages 0 (Nat.zero_le _)
      have hf0 : f idx ≠ [] := by simpa using hne 0 (Nat.succ_pos M)
      cases hfi : f idx with
      | nil => exact absurd hfi hf0
      | cons a as =>
        rw [hfi] at hp0
        have hstep : fetchPagesAux pages (fu + 1) idx acc reqs
            = fetchPagesAux pages fu (idx + 1) (acc ++ (a :: as)) (reqs + 1) := by
          simp [fetchPagesAux, hp0]
        rw [hstep]
        rw [ih fu (idx + 1) (acc ++ (a :: as)) (reqs + 1) (by omega)
          (fun i hi => by
            have h := hpages (i + 1) (Nat.succ_le_succ hi)
            simpa [show idx + (i + 1) = idx + 1 + i from by omega] using h)
          (fun i hi => by
            have h := hne (i + 1) (Nat.succ_lt_succ hi)
            simpa [show idx + (i + 1) = idx + 1 + i from by omega] using h)
          (by simpa [show idx + (M + 1) = idx + 1 + M from by omega] using hN)]
        have hlist : (acc ++ (a :: as)) ++ (List.range M).flatMap (fun i => f (idx + 1 + i))
            = acc ++ (List.range (M + 1)).flatMap (fun i => f (idx + i)) := by
          rw [List.append_assoc]
          congr 1
          rw [← hfi]
          exact flatMap_range_shift f M idx
        rw [hlist, show reqs + 1 + M + 1 = reqs + (M + 1) + 1 from by omega]

/-- C8: pagination termination and completeness.  If the remote feed
answers the first N page requests with non-empty pages and the (N+1)st
with an empty page, the event fetch terminates having issued exactly N+1
page requests and returns the concatenation of the N pages in the order
the API returned them (any recursion fuel beyond N suffices). -/
theorem pagination_terminates (pages : Nat → PageResult) (f : Nat → List RawEvent)
    (N fuel : Nat) (hfuel : N < fuel)
    (hpages : ∀ i ≤ N, pages i = .ok (f i))
    (hne : ∀ i < N, f i ≠ [])
    (hN : f N = []) :
    get_calendar_events_batch pages fuel
      = some (some ((List.range N).flatMap f), N + 1) := by
  have h := fetchPagesAux_spec pages f N fuel 0 [] 0 hfuel
    (fun i hi => by simpa using hpages i hi)
    (fun i hi => by simpa using hne i hi)
    (by simpa using hN)
  rw [get_calendar_events_batch, h]
  simp

/-- C8 witness: a feed of two one-event pages and then an empty page is
fetched with three requests and yields the two events in order. -/
theorem pagination_terminates_witness :
    get_calendar_events_batch pages3 5 = some (some [rawNoSubject, rawNoSubject], 3) := by
  have h := pagination_terminates pages3 fpages3 2 5 (by omega)
    (fun i _ => rfl) (by decide) (by decide)
  rw [h]
  decide

/-- The per-mailbox fold: the final state does not depend on the attempted
accumulator, and the attempted list collects exactly the mailboxes that
have an address, in order, independently of any fetch failures. -/
theorem sync_components (ci : Bool) (now : Int) (fetch : String → FetchResult) :
    ∀ (users : List Mailbox) (s : DBState) (a : List String),
      List.foldl (syncMailboxStep ci now fetch) (s, a) users
        = ((sync_calendar ci now fetch users s).1,
           a ++ users.filterMap Mailbox.mail) := by
  intro users
  induction users with
  | nil =>
    intro s a
    simp [sync_calendar]
  | cons u us ih =>
    intro s a
    rw [List.foldl_cons]
    have hsync : sync_calendar ci now fetch (u :: us) s
        = List.foldl (syncMailboxStep ci now fetch)
            (syncMailboxStep ci now fetch (s, []) u) us := by
      rw [sync_calendar, List.foldl_cons]
    cases hm : u.mail with
    | none =>
      have h1 : syncMailboxStep ci now fetch (s, a) u = (s, a) := by
        simp [syncMailboxStep, hm]
      have h2 : syncMailboxStep ci now fetch (s, []) u = (s, []) := by
        simp [syncMailboxStep, hm]
      rw [h1, ih, hsync, h2, ih]
      simp [List.filterMap_cons, hm]
    | some m =>
      cases hf : fetch m with
      | fail =>
        have h1 : syncMailboxStep ci now fetch (s, a) u = (s, a ++ [m]) := by
          simp [syncMailboxStep, hm, hf]
        have h2 : syncMailboxStep ci now fetch (s, []) u = (s, [] ++ [m]) := by
          simp [syncMailboxStep, hm, hf]
        rw [h1, ih, hsync, h2, ih]
        simp [List.filterMap_cons, hm]
      | ok evs =>
        have h1 : syncMailboxStep ci now fetch (s, a) u
            = ((process_events ci now m evs s).1, a ++ [m]) := by
          simp [syncMailboxStep, hm, hf]
        have h2 : syncMailboxStep ci now fetch (s, []) u
            = ((process_events ci now m evs s).1, [] ++ [m]) := by
          simp [syncMailboxStep, hm, hf]
        rw [h1, ih, hsync, h2, ih]
        simp [List.filterMap_cons, hm]

/-- C9: mailbox failure isolation.  A mailbox whose fetch fails contributes
nothing to the database: the final state of the whole run equals the state
obtained by syncing the mailboxes after it starting from the state already
committed for the mailboxes before it (so earlier mailboxes' writes stand
and every later mailbox is still processed); and the run attempts every
addressed mailbox of the listing in order, the failing one included. -/
theorem mailbox_failure_isolated (ci : Bool) (now : Int)
    (fetch : String → FetchResult) (us1 us2 : List Mailbox) (u : Mailbox)
    (m : String) (s : DBState) (hm : u.mail = some m)
    (hf : fetch m = FetchResult.fail) :
    (sync_calendar ci now fetch (us1 ++ u :: us2) s).1
      = (sync_calendar ci now fetch us2
          ((sync_calendar ci now fetch us1 s).1)).1 ∧
    (sync_calendar ci now fetch (us1 ++ u :: us2) s).2
      = (us1 ++ u :: us2).filterMap Mailbox.mail := by
  have hsplit : sync_calendar ci now fetch (us1 ++ u :: us2) s
      = List.foldl (syncMailboxStep ci now fetch)
          (syncMailboxStep ci now fetch
            (List.foldl (syncMailboxStep ci now fetch) (s, []) us1) u) us2 := by
    rw [sync_calendar, List.foldl_append, List.foldl_cons]
  have h1 : List.foldl (syncMailboxStep ci now fetch) (s, []) us1
      = ((sync_calendar ci now fetch us1 s).1, us1.filterMap Mailbox.mail) := by
    rw [sync_components]
    simp
  have hstep : syncMailboxStep ci now fetch
      ((sync_calendar ci now fetch us1 s).1, us1.filterMap Mailbox.mail) u
      = ((sync_calendar ci now fetch us1 s).1,
         us1.filterMap Mailbox.mail ++ [m]) := by
    simp [syncMailboxStep, hm, hf]
  rw [hsplit, h1, hstep, sync_components]
  constructor
  · rfl
  · simp [List.filterMap_append, List.filterMap_cons, hm]

/-- C9 witness: with mailbox B's fetch failing, the three-mailbox run
commits A's writes, still processes C from A's state, and attempts all
three mailboxes. -/
theorem mailbox_failure_isolated_witness :
    (sync_calendar true 0 demoFetch [mailboxA, mailboxB, mailboxC] emptyDB).1
      = (sync_calendar true 0 demoFetch [mailboxC]
          ((sync_calendar true 0 demoFetch [mailboxA] emptyDB).1)).1 ∧
    (sync_calendar true 0 demoFetch [mailboxA, mailboxB, mailboxC] emptyDB).2
      = ["a@x.com", "b@x.com", "c@x.com"] := by
  have h := mailbox_failure_isolated true 0 demoFetch [mailboxA] [mailboxC]
    mailboxB "b@x.com" emptyDB (by decide) (by decide)
  exact ⟨h.1, h.2.trans (by decide)⟩

end TrackTime
